import Mathlib

/-
Shallow embedding of the memory allocator in `src/osmem.c`.

The heap blocks managed through `sbrk` are contiguous in memory and linked in
address order, so the heap is modelled as a `List Block`; the address of the
block at index `i` is the sum of the footprints (header stride plus payload
size) of the blocks before it, with the start of the heap at address 0.  The
global `mem_end` is modelled as the raw address it holds, so that it can go
stale (point at an address that is no longer a block header), exactly as the
pointer in the C code can.  Blocks obtained from `mmap` live outside the heap
list and are keyed by a fresh identifier.

`struct block_meta` itself is defined in `helpers.h`, which is not part of
`src/`.  Modelled from the spec: the header stride `SIZEOF_STRUCT_BLOCK_META`
is the size of `struct block_meta` rounded up to a multiple of 8; since only
that much is specified, every definition below takes the stride `H` as a
parameter, and concrete runs instantiate `H := 24` (the stride of the natural
64-bit layout of a `size_t`, an `int` and a pointer).

Payload bytes are modelled per block as `Nat → Option Nat`, `none` standing
for indeterminate contents; fresh memory is indeterminate, `memset` and
`memcpy` update the map.  Reads or writes through a pointer that does not
address a live block (and the `mem_end->next` store when `mem_end` is null)
are modelled as `MemErr` outcomes, since the C program's behaviour is
unspecified there.  `sbrk`/`mmap` are assumed to succeed (`DIE` aborts the
process otherwise); the sizes they are called with are recorded as traces.
-/

namespace OSMem

/-- Allocation status of a block: `STATUS_ALLOC`, `STATUS_FREE`,
`STATUS_MAPPED`. -/
inductive Status where
  | ALLOC
  | FREE
  | MAPPED
deriving DecidableEq

/-- `ALIGN8(size)` from `osmem.c`: round up to a multiple of 8. -/
def ALIGN8 (n : Nat) : Nat := ((n + 7) / 8) * 8

/-- `MMAP_THRESHOLD` from `osmem.c`: 128 KiB. -/
def MMAP_THRESHOLD : Nat := 128 * 1024

/-- A heap block: payload capacity, status, and payload contents
(`none` = indeterminate byte). The `next` link is implicit: the successor of a
block is the next entry of the heap list. -/
structure Block where
  size : Nat
  status : Status
  data : Nat → Option Nat

/-- Placeholder block used as the default of partial lookups. -/
def dfltBlock : Block := ⟨0, .ALLOC, fun _ => none⟩

/-- The block at index `i`, or the placeholder out of range. -/
def blkAt (bs : List Block) (i : Nat) : Block := (bs[i]?).getD dfltBlock

/-- Address of the block header at index `i`: the heap starts at address 0 and
each block occupies `H + size` bytes. -/
def addrAt (H : Nat) : List Block → Nat → Nat
  | _, 0 => 0
  | [], _ + 1 => 0
  | b :: bs, i + 1 => H + b.size + addrAt H bs i

/-- Address of the first byte after the last heap block (the program break). -/
def endAddr (H : Nat) (bs : List Block) : Nat := addrAt H bs bs.length

/-- Address of the last heap block, or `none` for an empty heap. -/
def lastAddrOpt (H : Nat) (bs : List Block) : Option Nat :=
  if bs.isEmpty then none else some (addrAt H bs (bs.length - 1))

/-- Recover the index of the block whose header is at address `a`. -/
def idxAt (H : Nat) (bs : List Block) (a : Nat) : Option Nat :=
  (List.range bs.length).find? (fun i => addrAt H bs i == a)

/-- `split_block` from `osmem.c`: carve the block at index `i` at request `n`.
The second part starts `ALIGN8(n + H)` bytes into the block, is `FREE`, and
keeps the old successor; `mem_end` is moved to the second part when it held the
address of the split block. -/
def split_block (H : Nat) (bs : List Block) (me : Option Nat) (i n : Nat) :
    List Block × Option Nat :=
  let S := ALIGN8 (n + H)
  match bs[i]? with
  | none => (bs, me)
  | some b =>
    let second : Block :=
      { size := ALIGN8 (b.size - S), status := .FREE, data := fun j => b.data (S + j) }
    let left : Block := { b with size := ALIGN8 n }
    let me' := if me = some (addrAt H bs i) then some (addrAt H bs i + S) else me
    (bs.take i ++ left :: second :: bs.drop (i + 1), me')

/-- One merge step of the coalescing loop: the first block absorbs the second,
gaining its payload plus the reclaimed header stride; the absorbed header and
the gap become indeterminate bytes. -/
def mergeBlocks (H : Nat) (b c : Block) : Block :=
  { size := ALIGN8 (b.size + c.size + H)
    status := b.status
    data := fun j =>
      if j < b.size then b.data j
      else if j < b.size + H then none
      else c.data (j - b.size - H) }

/-- The scanning loop of `coalesce_blocks`, with `cur` the block the C loop's
`curr` points at: whenever `cur` and its successor are both `FREE` they are
merged and scanning stays at the merged block, otherwise `cur` is kept and the
scan moves on. -/
def coalesceAux (H : Nat) (cur : Block) : List Block → List Block
  | [] => [cur]
  | c :: rest =>
    if cur.status = .FREE ∧ c.status = .FREE then
      coalesceAux H (mergeBlocks H cur c) rest
    else cur :: coalesceAux H c rest

/-- The full coalescing scan starting from the list head. -/
def coalesceList (H : Nat) : List Block → List Block
  | [] => []
  | b :: bs => coalesceAux H b bs

/-- `coalesce_blocks` from `osmem.c`: merge adjacent `FREE` blocks, then
recompute `mem_end` as the last block reachable from the head. -/
def coalesce_blocks (H : Nat) (bs : List Block) : List Block × Option Nat :=
  let bs1 := coalesceList H bs
  (bs1, lastAddrOpt H bs1)

/-- The search loop of `find_best_block`: arguments are the remaining suffix,
the index of its first entry, the current best index, the current best size and
the `can_be_used` flag. -/
def bestScan (size : Nat) : List Block → Nat → Nat → Nat → Bool → Nat × Bool
  | [], _, best, _, canBe => (best, canBe)
  | b :: rest, i, best, bestSize, canBe =>
    if b.status = .FREE ∧ size ≤ b.size ∧ (b.size < bestSize ∨ canBe = false) then
      bestScan size rest (i + 1) i b.size true
    else
      bestScan size rest (i + 1) best bestSize canBe

/-- `find_best_block` from `osmem.c`: on a non-empty heap, coalesce, then scan
the whole list starting from the head, which also initialises the candidate to
the head block (`can_be_used` is set iff the head is `FREE`, with no size
check); finally split the winner when it is strictly larger than the slot size
`ALIGN8(size + H)`.  Returns the index of the winner (or `none`), the updated
heap and the updated `mem_end`. -/
def find_best_block (H : Nat) (bs : List Block) (me : Option Nat) (size : Nat) :
    Option Nat × List Block × Option Nat :=
  if bs.isEmpty then (none, bs, me) else
  let c := coalesce_blocks H bs
  let bs1 := c.1
  let r := bestScan size bs1 0 0 (blkAt bs1 0).size (decide ((blkAt bs1 0).status = .FREE))
  let S := ALIGN8 (size + H)
  if r.2 = true ∧ S < (blkAt bs1 r.1).size then
    let sp := split_block H bs1 c.2 r.1 size
    (some r.1, sp.1, sp.2)
  else if r.2 = true then (some r.1, bs1, c.2)
  else (none, bs1, c.2)

/-- Which syscall `create_block` used, with the byte count requested. -/
inductive Mech where
  | sbrkCall (delta : Nat)
  | mmapCall (len : Nat)
deriving DecidableEq

/-- A block as produced by `create_block`, before any linking: its `next`
field is explicit (the C code sets it to `NULL`). -/
structure NewBlock where
  size : Nat
  status : Status
  next : Option Nat
  data : Nat → Option Nat

/-- Forget the (null) `next` link when the block enters the heap list. -/
def NewBlock.toBlock (nb : NewBlock) : Block := ⟨nb.size, nb.status, nb.data⟩

/-- `create_block` from `osmem.c`: extend the heap (`sbrk`, status `ALLOC`)
when `ALIGN8(size) < treshold`, otherwise take an anonymous private
read/write mapping (`mmap`, status `MAPPED`); either way the block's size is
`ALIGN8(size)` and its `next` is null. -/
def create_block (H size treshold : Nat) : NewBlock × Mech :=
  if ALIGN8 size < treshold then
    (⟨ALIGN8 size, .ALLOC, none, fun _ => none⟩, .sbrkCall (ALIGN8 (size + H)))
  else
    (⟨ALIGN8 size, .MAPPED, none, fun _ => none⟩, .mmapCall (ALIGN8 (size + H)))

/-- The whole allocator state: the heap list, the raw address held by
`mem_end`, the live mappings keyed by identifier, the next fresh mapping
identifier, and the traces of `sbrk`/`mmap` requests. `mem_begin` is null iff
`blocks` is empty. -/
structure Arena where
  blocks : List Block
  memEnd : Option Nat
  mapped : List (Nat × Block)
  nextId : Nat
  sbrks : List Nat
  mmaps : List Nat

/-- The state of a fresh process: both list ends null, nothing mapped. -/
def Arena.empty : Arena := ⟨[], none, [], 0, [], []⟩

/-- Append a provisioning request to the syscall trace. -/
def recordMech (st : Arena) : Mech → Arena
  | .sbrkCall d => { st with sbrks := st.sbrks ++ [d] }
  | .mmapCall l => { st with mmaps := st.mmaps ++ [l] }

/-- A payload pointer: the base address of a heap block, or the identifier of
a mapping.  The two address spaces are disjoint, as `sbrk` and `mmap` memory
are in the real process. -/
inductive Ptr where
  | heap (a : Nat)
  | mapd (id : Nat)
deriving DecidableEq

/-- Unspecified behaviour reached by the C code: a store through a null
`mem_end`, or an access through a pointer that addresses no live block. -/
inductive MemErr where
  | nullDeref
  | wild
deriving DecidableEq

/-- `prealloc` from `osmem.c`: reserve one heap block whose total footprint is
exactly `MMAP_THRESHOLD` and make it both `mem_begin` and `mem_end`. -/
def prealloc (H : Nat) (st : Arena) : Ptr × Arena :=
  let cm := create_block H (MMAP_THRESHOLD - H) MMAP_THRESHOLD
  (Ptr.heap 0,
   recordMech { st with blocks := [cm.1.toBlock], memEnd := some 0 } cm.2)

/-- Mark the block at index `i` as `ALLOC` (the caller of `find_best_block`
does this on a hit). -/
def markAlloc (bs : List Block) (i : Nat) : List Block :=
  match bs[i]? with
  | none => bs
  | some b => bs.set i { b with status := .ALLOC }

/-- Final provisioning step of `os_malloc_aux`: `create_block` with threshold
`treshold - H`; a heap block is linked through `mem_end->next` and becomes the
new `mem_end` (a null `mem_end` would be dereferenced here), a mapped block is
returned without touching the list. -/
def malloc_create (H : Nat) (st : Arena) (sa treshold : Nat) :
    Except MemErr (Option Ptr × Arena) :=
  let cm := create_block H sa (treshold - H)
  if cm.1.status = .ALLOC then
    match st.memEnd with
    | none => .error .nullDeref
    | some a =>
      if st.blocks.isEmpty = false ∧ some a = lastAddrOpt H st.blocks then
        let newAddr := endAddr H st.blocks
        let st1 := { st with blocks := st.blocks ++ [cm.1.toBlock], memEnd := some newAddr }
        .ok (some (.heap newAddr), recordMech st1 cm.2)
      else .error .wild
  else
    let st1 := { st with mapped := st.mapped ++ [(st.nextId, cm.1.toBlock)], nextId := st.nextId + 1 }
    .ok (some (.mapd st.nextId), recordMech st1 cm.2)

/-- Preallocation step of `os_malloc_aux`: on an empty list with a small
enough request, run `prealloc` and return its payload whole. -/
def malloc_prealloc (H : Nat) (st : Arena) (sa treshold : Nat) :
    Except MemErr (Option Ptr × Arena) :=
  if sa < treshold - H ∧ st.blocks.isEmpty then
    let r := prealloc H st
    .ok (some r.1, r.2)
  else malloc_create H st sa treshold

/-- Last-block-expansion step of `os_malloc_aux`: when `mem_end` is non-null,
`FREE`, smaller than the request and the request is below `treshold - H`, grow
the break by the missing amount and reuse the block in place.  Reading through
a stale `mem_end`, or growing a block that is not the last one in memory, is
unspecified. -/
def malloc_expand (H : Nat) (st : Arena) (sa treshold : Nat) :
    Except MemErr (Option Ptr × Arena) :=
  match st.memEnd with
  | none => malloc_prealloc H st sa treshold
  | some a =>
    match idxAt H st.blocks a with
    | none => .error .wild
    | some i =>
      let b := blkAt st.blocks i
      if b.status = .FREE ∧ b.size < sa ∧ sa < treshold - H then
        if i + 1 = st.blocks.length then
          let b' : Block :=
            { size := ALIGN8 sa, status := .ALLOC,
              data := fun j => if j < b.size then b.data j else none }
          let st1 := { st with blocks := st.blocks.set i b', sbrks := st.sbrks ++ [ALIGN8 (sa - b.size)] }
          .ok (some (.heap a), st1)
        else .error .wild
      else malloc_prealloc H st sa treshold

/-- `os_malloc_aux` from `osmem.c`: null on a zero request; otherwise try the
best-fit search (when the list exists and the aligned size is below the
threshold), then last-block expansion, then preallocation, then fresh
provisioning. -/
def os_malloc_aux (H : Nat) (st : Arena) (size treshold : Nat) :
    Except MemErr (Option Ptr × Arena) :=
  if size = 0 then .ok (none, st) else
  let sa := ALIGN8 size
  if st.blocks.isEmpty = false ∧ sa < treshold then
    let f := find_best_block H st.blocks st.memEnd sa
    match f.1 with
    | some i =>
      .ok (some (.heap (addrAt H f.2.1 i)),
           { st with blocks := markAlloc f.2.1 i, memEnd := f.2.2 })
    | none => malloc_expand H { st with blocks := f.2.1, memEnd := f.2.2 } sa treshold
  else malloc_expand H st sa treshold

/-- `os_malloc` from `osmem.c`: `os_malloc_aux` with `MMAP_THRESHOLD`. -/
def os_malloc (H : Nat) (st : Arena) (size : Nat) :
    Except MemErr (Option Ptr × Arena) :=
  os_malloc_aux H st size MMAP_THRESHOLD

/-- Write zero bytes over the first `cnt` payload bytes of a block
(`memset(p, 0, cnt)`). -/
def zeroData (b : Block) (cnt : Nat) : Block :=
  { b with data := fun j => if j < cnt then some 0 else b.data j }

/-- Look up a live mapping by identifier. -/
def lookupMapped : List (Nat × Block) → Nat → Option Block
  | [], _ => none
  | p :: r, id => if p.1 = id then some p.2 else lookupMapped r id

/-- Replace a live mapping in place. -/
def setMapped : List (Nat × Block) → Nat → Block → List (Nat × Block)
  | [], _, _ => []
  | p :: r, id, b => if p.1 = id then (p.1, b) :: r else p :: setMapped r id b

/-- Drop a mapping (`munmap`). -/
def removeMapped : List (Nat × Block) → Nat → List (Nat × Block)
  | [], _ => []
  | p :: r, id => if p.1 = id then r else p :: removeMapped r id

/-- `memset(payload(p), 0, cnt)` on the allocator state. -/
def memsetZero (H : Nat) (st : Arena) (p : Ptr) (cnt : Nat) : Arena :=
  match p with
  | .heap a =>
    match idxAt H st.blocks a with
    | some i => { st with blocks := st.blocks.set i (zeroData (blkAt st.blocks i) cnt) }
    | none => st
  | .mapd id =>
    match lookupMapped st.mapped id with
    | some b => { st with mapped := setMapped st.mapped id (zeroData b cnt) }
    | none => st

/-- `os_calloc` from `osmem.c`: `os_malloc_aux` on the `size_t` product
`nmemb * size` (which wraps modulo `2 ^ 64`) with the page size as threshold,
then `memset` the product's worth of bytes to zero. -/
def os_calloc (H pageSize : Nat) (st : Arena) (nmemb size : Nat) :
    Except MemErr (Option Ptr × Arena) :=
  let cnt := nmemb * size % 2 ^ 64
  match os_malloc_aux H st cnt pageSize with
  | .error e => .error e
  | .ok (none, st1) => if cnt = 0 then .ok (none, st1) else .error .wild
  | .ok (some p, st1) => .ok (some p, memsetZero H st1 p cnt)

/-- `os_free` from `osmem.c`: a no-op on null; an `ALLOC` heap block is marked
`FREE` and stays in the list; a `MAPPED` block is unmapped and vanishes; a
block already `FREE` is left alone (neither branch of the C code fires). -/
def os_free (H : Nat) (st : Arena) (p : Option Ptr) : Except MemErr Arena :=
  match p with
  | none => .ok st
  | some (.heap a) =>
    match idxAt H st.blocks a with
    | none => .error .wild
    | some i =>
      let b := blkAt st.blocks i
      if b.status = .ALLOC then
        .ok { st with blocks := st.blocks.set i { b with status := .FREE } }
      else if b.status = .MAPPED then .error .wild
      else .ok st
  | some (.mapd id) =>
    match lookupMapped st.mapped id with
    | none => .error .wild
    | some b =>
      if b.status = .ALLOC then
        .ok { st with mapped := setMapped st.mapped id { b with status := .FREE } }
      else if b.status = .MAPPED then
        .ok { st with mapped := removeMapped st.mapped id }
      else .ok st

/-- The forward-coalescing loop of `os_realloc`: absorb successive `FREE`
successors, stopping when the next block is absent or busy, when absorbing
would push the merged total past `MMAP_THRESHOLD`, or as soon as the merged
block covers the requested total.  `mem_end` is not consulted or updated. -/
def absorbLoop (H newTotal : Nat) (b : Block) : List Block → Block × List Block
  | [] => (b, [])
  | t :: rs =>
    if t.status = .FREE then
      if MMAP_THRESHOLD < ALIGN8 (b.size + t.size + H) then (b, t :: rs)
      else
        let b' := mergeBlocks H b t
        if newTotal ≤ ALIGN8 (b'.size + H) then (b', rs)
        else absorbLoop H newTotal b' rs
    else (b, t :: rs)

/-- Copy `cnt` bytes from the payload of `src` over the payload of `dst`
(`memcpy`); the copy is modelled inside the destination's byte map. -/
def copyFrom (src : Block) (cnt : Nat) (dst : Block) : Block :=
  { dst with data := fun j => if j < cnt then src.data j else dst.data j }

/-- The block a payload pointer refers to (the placeholder if dead). -/
def ptrBlock (H : Nat) (st : Arena) : Ptr → Block
  | .heap a =>
    match idxAt H st.blocks a with
    | some i => blkAt st.blocks i
    | none => dfltBlock
  | .mapd id => (lookupMapped st.mapped id).getD dfltBlock

/-- `memcpy(payload(dst), payload(src), cnt)` on the allocator state. -/
def memcpyPtr (H : Nat) (st : Arena) (dst src : Ptr) (cnt : Nat) : Arena :=
  let s := ptrBlock H st src
  match dst with
  | .heap a =>
    match idxAt H st.blocks a with
    | some i => { st with blocks := st.blocks.set i (copyFrom s cnt (blkAt st.blocks i)) }
    | none => st
  | .mapd id =>
    match lookupMapped st.mapped id with
    | some b => { st with mapped := setMapped st.mapped id (copyFrom s cnt b) }
    | none => st

/-- The relocation tail of `os_realloc`: allocate a fresh block, copy `cnt`
bytes across, and release the old payload (unconditionally on the mapped
shrink path, only when the pointers differ on the final path). -/
def relocate (H : Nat) (st : Arena) (oldPtr : Ptr) (size cnt : Nat) (checkSame : Bool) :
    Except MemErr (Option Ptr × Arena) :=
  match os_malloc H st size with
  | .error e => .error e
  | .ok (none, st1) => .ok (none, st1)
  | .ok (some q, st1) =>
    let st2 := memcpyPtr H st1 q oldPtr cnt
    if checkSame ∧ q = oldPtr then .ok (some q, st2)
    else
      match os_free H st2 (some oldPtr) with
      | .error e => .error e
      | .ok st3 => .ok (some q, st3)

/-- `os_realloc` from `osmem.c`.  Null pointer: plain `os_malloc`.  Zero size:
`os_free` then null.  A `FREE` block: null, nothing changed.  Then, in order:
grow-in-place at `mem_end`, forward coalescing (which never updates
`mem_end`), exact fit, shrink with split (mapped blocks relocate instead),
shrink without split, and relocation.  A pointer into a mapping compares
unequal to the heap pointer `mem_end` and has a null `next`, so the mapped
branch skips the tail-growth and coalescing steps structurally. -/
def os_realloc (H : Nat) (st : Arena) (ptr : Option Ptr) (size : Nat) :
    Except MemErr (Option Ptr × Arena) :=
  match ptr with
  | none => os_malloc H st size
  | some p =>
    if size = 0 then
      match os_free H st (some p) with
      | .error e => .error e
      | .ok st1 => .ok (none, st1)
    else
      match p with
      | .heap a =>
        match idxAt H st.blocks a with
        | none => .error .wild
        | some i =>
          let b := blkAt st.blocks i
          let newT := ALIGN8 (size + H)
          let oldT := ALIGN8 (b.size + H)
          if b.status = .FREE then .ok (none, st)
          else if st.memEnd = some a ∧ oldT < newT ∧ ALIGN8 size < MMAP_THRESHOLD - H then
            if i + 1 = st.blocks.length then
              let b' : Block :=
                { size := ALIGN8 size, status := .ALLOC,
                  data := fun j => if j < b.size then b.data j else none }
              let st1 := { st with blocks := st.blocks.set i b', sbrks := st.sbrks ++ [ALIGN8 (size - b.size)] }
              .ok (some (.heap a), st1)
            else .error .wild
          else
            let ar := if oldT < newT ∧ newT < MMAP_THRESHOLD
                      then absorbLoop H newT b (st.blocks.drop (i + 1))
                      else (b, st.blocks.drop (i + 1))
            let bs1 := st.blocks.take i ++ ar.1 :: ar.2
            let st1 := { st with blocks := bs1 }
            let oldT2 := ALIGN8 (ar.1.size + H)
            if oldT2 = newT then .ok (some (.heap a), st1)
            else if newT + H < oldT2 ∧ ar.1.status = .MAPPED then
              relocate H st1 (.heap a) size newT false
            else if newT + H < oldT2 ∧ ar.1.status = .ALLOC then
              let sp := split_block H st1.blocks st1.memEnd i size
              .ok (some (.heap a), { st1 with blocks := sp.1, memEnd := sp.2 })
            else if newT < oldT2 then .ok (some (.heap a), st1)
            else relocate H st1 (.heap a) size oldT2 true
      | .mapd id =>
        match lookupMapped st.mapped id with
        | none => .error .wild
        | some m =>
          let newT := ALIGN8 (size + H)
          let oldT := ALIGN8 (m.size + H)
          if m.status = .FREE then .ok (none, st)
          else if oldT = newT then .ok (some (.mapd id), st)
          else if newT + H < oldT ∧ m.status = .MAPPED then
            relocate H st (.mapd id) size newT false
          else if newT + H < oldT ∧ m.status = .ALLOC then .error .wild
          else if newT < oldT then .ok (some (.mapd id), st)
          else relocate H st (.mapd id) size oldT true

/-! ## Projections used to state facts about concrete runs -/

/-- The size field of the returned block, when the run returned a payload. -/
def runPtrSize (H : Nat) (r : Except MemErr (Option Ptr × Arena)) : Option Nat :=
  match r with
  | .ok (some p, st) => some ((ptrBlock H st p).size)
  | _ => none

/-- The heap block list produced by a run (empty on error). -/
def runBlocks (r : Except MemErr (Option Ptr × Arena)) : List Block :=
  match r with
  | .ok (_, st) => st.blocks
  | .error _ => []

/-- Sizes of the heap blocks after a run. -/
def runSizes (r : Except MemErr (Option Ptr × Arena)) : List Nat :=
  (runBlocks r).map Block.size

/-- Statuses of the heap blocks after a run. -/
def runStatuses (r : Except MemErr (Option Ptr × Arena)) : List Status :=
  (runBlocks r).map Block.status

/-- `mem_end` and the address of the last reachable block after a run. -/
def runEnds (H : Nat) (r : Except MemErr (Option Ptr × Arena)) : Option Nat × Option Nat :=
  match r with
  | .ok (_, st) => (st.memEnd, lastAddrOpt H st.blocks)
  | .error _ => (none, none)

/-- Decidable check that no two adjacent heap blocks are both `FREE`. -/
def noAdjFree : List Block → Bool
  | [] => true
  | [_] => true
  | a :: b :: r => !(a.status == .FREE && b.status == .FREE) && noAdjFree (b :: r)

/-! ## Basic arithmetic facts about `ALIGN8` -/

theorem ALIGN8_dvd (n : Nat) : 8 ∣ ALIGN8 n := Dvd.intro ((n + 7) / 8) (Nat.mul_comm _ _)

theorem ALIGN8_le (n : Nat) : n ≤ ALIGN8 n := by
  unfold ALIGN8; omega

theorem ALIGN8_eq_self {n : Nat} (h : 8 ∣ n) : ALIGN8 n = n := by
  unfold ALIGN8; omega

theorem ALIGN8_idem (n : Nat) : ALIGN8 (ALIGN8 n) = ALIGN8 n :=
  ALIGN8_eq_self (ALIGN8_dvd n)

/-! ## Concrete runs exhibiting the behaviour of the public operations

All concrete runs instantiate the header stride with `H = 24`. -/

/-- From a fresh process: allocate 100, release it, allocate 100 twice
(the heap is now `[ALLOC 104, ALLOC 104, FREE 130792]`), release the first
104-byte block, then request 200 bytes. -/
def seqUndersized : Except MemErr (Option Ptr × Arena) := do
  let (p1, s1) ← os_malloc 24 Arena.empty 100
  let s2 ← os_free 24 s1 p1
  let (p2, s3) ← os_malloc 24 s2 100
  let (_, s4) ← os_malloc 24 s3 100
  let s5 ← os_free 24 s4 p2
  os_malloc 24 s5 200

/-- The heap state `[FREE 104, ALLOC 104, FREE 130792]` reached by
`seqUndersized` just before its final allocation. -/
def midBlocks : List Block :=
  [⟨104, .FREE, fun _ => none⟩, ⟨104, .ALLOC, fun _ => none⟩,
   ⟨130792, .FREE, fun _ => none⟩]

/-- From a fresh process: allocate 100, release it, allocate 100 (the heap is
now `[ALLOC 104, FREE 130920]` with `mem_end` at address 128), then resize the
first block to 200 so that its forward coalescing absorbs the tail block. -/
def seqStaleTail : Except MemErr (Option Ptr × Arena) := do
  let (p1, s1) ← os_malloc 24 Arena.empty 100
  let s2 ← os_free 24 s1 p1
  let (p2, s3) ← os_malloc 24 s2 100
  os_realloc 24 s3 p2 200

/-- From a fresh process: allocate 100, release it, allocate 100 twice, then
release both live blocks, leaving `[FREE 104, FREE 104, FREE 130792]`. -/
def seqAdjacentFree : Except MemErr Arena := do
  let (p1, s1) ← os_malloc 24 Arena.empty 100
  let s2 ← os_free 24 s1 p1
  let (p2, s3) ← os_malloc 24 s2 100
  let (p3, s4) ← os_malloc 24 s3 100
  let s5 ← os_free 24 s4 p2
  os_free 24 s5 p3

/-! ## C1 -/

/-- C1: the claim that `allocate(n)` always returns a payload whose block has
at least `n` usable bytes is violated by the code: after the public sequence
`seqUndersized`, the final `allocate(200)` hands out a block whose size field
is 104.  The root cause is that `find_best_block` initialises `can_be_used`
from the head block's status alone, without checking its size against the
request, so an undersized `FREE` head survives as the winner. -/
theorem C1_allocate_returns_undersized_block :
    runPtrSize 24 seqUndersized = some 104 ∧ 104 < 200 := ⟨rfl, by omega⟩

/-! ## C2 -/

/-- C2: the claim that the best-fit search returns the `FREE` block of
smallest sufficient size, and fails when none is large enough, is violated:
on the heap `[FREE 104, ALLOC 104, FREE 130792]` with a request of 208 bytes
the search returns the head block of size 104 even though the block at index 2
is `FREE` and large enough. -/
theorem C2_best_fit_returns_too_small_block :
    (find_best_block 24 midBlocks (some 256) 208).1 = some 0 ∧
    (blkAt midBlocks 0).size = 104 ∧ (blkAt midBlocks 0).size < 208 ∧
    (blkAt midBlocks 2).status = .FREE ∧ 208 ≤ (blkAt midBlocks 2).size :=
  ⟨rfl, rfl, by decide, rfl, by decide⟩

/-! ## C4 -/

/-- C4: the claim that `tail` always equals the last block reachable from
`head` after every public operation — "including after resize's
forward-coalescing absorbs the old tail block" — is violated exactly there:
after `seqStaleTail`, `mem_end` still holds address 128 (the header of the
absorbed block) while the last reachable block sits at address 224.  The
coalescing loop inside `os_realloc` never updates `mem_end`, and the
subsequent `split_block` compares the stale address against the block being
split, so the stale value survives to the exit of the public call. -/
theorem C4_resize_leaves_stale_tail :
    runEnds 24 seqStaleTail = (some 128, some 224) ∧
    (some 128 : Option Nat) ≠ some 224 := ⟨rfl, by decide⟩

/-! ## C5 (counterexample) -/

/-- C5: the claim that no two adjacent heap blocks are simultaneously `FREE`
at the exit of every public operation is violated by `release`: after
`seqAdjacentFree` the heap is `[FREE 104, FREE 104, FREE 130792]`.
Coalescing is deferred to the next best-fit search. -/
theorem C5_release_leaves_adjacent_free :
    (match seqAdjacentFree with
     | .ok st => noAdjFree st.blocks
     | .error _ => true) = false := rfl

/-! ## C3 (counterexample) -/

/-- C3: the claim that `allocate(100)` on a fresh process returns a block of
size 104 with a trailing `FREE` block as tail is violated: the preallocated
block is returned whole — the heap holds a single `ALLOC` block of size
`MMAP_THRESHOLD - H = 131048` (for `H = 24`) and nothing is split off. -/
theorem C3_first_allocation_not_split :
    runSizes (os_malloc 24 Arena.empty 100) = [131048] ∧
    runStatuses (os_malloc 24 Arena.empty 100) = [.ALLOC] ∧
    (131048 : Nat) ≠ 104 := ⟨rfl, rfl, by decide⟩

/-! ## C8 (counterexample) -/

/-- C8: the claim that `zero_allocate(k, n)` returns a payload of at least
`k·n` zeroed bytes whenever `k·n > 0` fails when the `size_t` product
overflows: with `k = n = 2^32` the product wraps to 0, the underlying
allocation returns null, and `zero_allocate` returns null although
mathematically `k·n > 0`. -/
theorem C8_calloc_product_overflow :
    os_calloc 24 4096 Arena.empty (2 ^ 32) (2 ^ 32) = .ok (none, Arena.empty) ∧
    0 < 2 ^ 32 * 2 ^ 32 := ⟨rfl, by positivity⟩

/-! ## Pointer validity and list helpers -/

/-- Whether a payload pointer addresses a live block of the arena. -/
def ptrFound (H : Nat) (st : Arena) : Ptr → Bool
  | .heap a => (idxAt H st.blocks a).isSome
  | .mapd id => (lookupMapped st.mapped id).isSome

theorem idxAt_lt_length {H : Nat} {bs : List Block} {a i : Nat}
    (h : idxAt H bs a = some i) : i < bs.length := by
  unfold idxAt at h
  have hm := List.mem_of_find?_eq_some h
  simpa using List.mem_range.mp hm

theorem take_cons_drop {bs : List Block} {i : Nat} (h : i < bs.length) :
    bs.take i ++ bs[i] :: bs.drop (i + 1) = bs := by
  have hd : bs.drop i = bs[i] :: bs.drop (i + 1) := List.drop_eq_getElem_cons h
  calc bs.take i ++ bs[i] :: bs.drop (i + 1) = bs.take i ++ bs.drop i := by rw [hd]
  _ = bs := List.take_append_drop i bs

/-! ## C9 -/

/-- C9: for a live payload whose block is in use (`ALLOC` or `MAPPED`, hence
not `FREE`) and has a positive size, resizing it to its own size returns the
same pointer and leaves the whole arena — sizes, statuses, links, mappings —
unchanged: the old and new aligned totals coincide, so the exact-fit branch is
taken before anything is modified. -/
theorem C9_resize_same_size (H : Nat) (st : Arena) (p : Ptr)
    (hv : ptrFound H st p = true)
    (hs : (ptrBlock H st p).status ≠ .FREE)
    (hpos : 0 < (ptrBlock H st p).size) :
    os_realloc H st (some p) ((ptrBlock H st p).size) = .ok (some p, st) := by
  cases p with
  | heap a =>
    simp only [ptrFound] at hv
    obtain ⟨i, hi⟩ := Option.isSome_iff_exists.mp hv
    have hlt : i < st.blocks.length := idxAt_lt_length hi
    have hpb : ptrBlock H st (.heap a) = blkAt st.blocks i := by
      simp only [ptrBlock, hi]
    rw [hpb] at hs hpos ⊢
    have hne : ¬ ((blkAt st.blocks i).size = 0) := by omega
    have hgrow : ¬ (st.memEnd = some a ∧
        ALIGN8 ((blkAt st.blocks i).size + H) < ALIGN8 ((blkAt st.blocks i).size + H) ∧
        ALIGN8 (blkAt st.blocks i).size < MMAP_THRESHOLD - H) := by
      rintro ⟨-, h2, -⟩
      exact absurd h2 (lt_irrefl _)
    have hco : ¬ (ALIGN8 ((blkAt st.blocks i).size + H) < ALIGN8 ((blkAt st.blocks i).size + H) ∧
        ALIGN8 ((blkAt st.blocks i).size + H) < MMAP_THRESHOLD) := by
      rintro ⟨h2, -⟩
      exact absurd h2 (lt_irrefl _)
    simp only [os_realloc, hi]
    rw [if_neg hne, if_neg hs, if_neg hgrow, if_neg hco]
    dsimp only
    rw [if_pos rfl]
    have hb : blkAt st.blocks i = st.blocks[i] := by
      unfold blkAt
      rw [List.getElem?_eq_getElem hlt]
      rfl
    have hbs : st.blocks.take i ++ blkAt st.blocks i :: st.blocks.drop (i + 1) = st.blocks := by
      rw [hb]; exact take_cons_drop hlt
    rw [hbs]
  | mapd id =>
    simp only [ptrFound] at hv
    obtain ⟨m, hm⟩ := Option.isSome_iff_exists.mp hv
    have hpb : ptrBlock H st (.mapd id) = m := by
      simp only [ptrBlock, hm, Option.getD_some]
    rw [hpb] at hs hpos ⊢
    have hne : ¬ (m.size = 0) := by omega
    simp only [os_realloc, hm]
    rw [if_neg hne, if_neg hs, if_pos trivial]

/-- A one-block arena with an 8-byte `ALLOC` block, used as witness state. -/
def st9 : Arena := ⟨[⟨8, .ALLOC, fun _ => none⟩], some 0, [], 0, [], []⟩

theorem C9_witness :
    os_realloc 24 st9 (some (.heap 0)) ((ptrBlock 24 st9 (.heap 0)).size) =
      .ok (some (.heap 0), st9) :=
  C9_resize_same_size 24 st9 (.heap 0) (by decide) (by decide) (by decide)

/-! ## C7 -/

/-- C7: the early exits of `resize`: a null pointer makes it behave exactly as
`allocate(n)`; a zero size releases the payload and returns null; and a
payload whose heap block is `FREE` gets null back with the arena untouched —
also for size 0, where the intervening `release` is a no-op on a `FREE`
block. -/
theorem C7_realloc_edge_cases (H : Nat) (st : Arena) (a i : Nat)
    (hi : idxAt H st.blocks a = some i)
    (hF : (blkAt st.blocks i).status = .FREE) :
    (∀ n : Nat, os_realloc H st none n = os_malloc H st n) ∧
    (∀ p : Ptr, os_realloc H st (some p) 0 =
      match os_free H st (some p) with
      | .error e => .error e
      | .ok st1 => .ok (none, st1)) ∧
    (∀ m : Nat, os_realloc H st (some (.heap a)) m = .ok (none, st)) := by
  have hfree : os_free H st (some (.heap a)) = .ok st := by
    simp only [os_free, hi]
    rw [if_neg (show ¬ (blkAt st.blocks i).status = .ALLOC by simp [hF]),
        if_neg (show ¬ (blkAt st.blocks i).status = .MAPPED by simp [hF])]
  refine ⟨fun n => rfl, fun p => by simp only [os_realloc]; rw [if_pos trivial], fun m => ?_⟩
  by_cases hm : m = 0
  · subst hm
    simp only [os_realloc]
    rw [if_pos trivial, hfree]
  · simp only [os_realloc, hi]
    rw [if_neg hm, if_pos hF]

/-- A one-block arena with an 8-byte `FREE` block, used as witness state. -/
def st7 : Arena := ⟨[⟨8, .FREE, fun _ => none⟩], some 0, [], 0, [], []⟩

theorem C7_witness :
    (∀ n : Nat, os_realloc 24 st7 none n = os_malloc 24 st7 n) ∧
    (∀ p : Ptr, os_realloc 24 st7 (some p) 0 =
      match os_free 24 st7 (some p) with
      | .error e => .error e
      | .ok st1 => .ok (none, st1)) ∧
    (∀ m : Nat, os_realloc 24 st7 (some (.heap 0)) m = .ok (none, st7)) :=
  C7_realloc_edge_cases 24 st7 0 0 (by decide) (by decide)

/-! ## C10 -/

theorem lastAddrOpt_eq_none {H : Nat} {bs : List Block} :
    lastAddrOpt H bs = none ↔ bs.isEmpty = true := by
  unfold lastAddrOpt
  split <;> simp_all

theorem coalesceAux_ne_nil (H : Nat) (cur : Block) (l : List Block) :
    coalesceAux H cur l ≠ [] := by
  induction l generalizing cur with
  | nil => simp [coalesceAux]
  | cons c rest ih =>
    unfold coalesceAux
    split
    · exact ih _
    · simp

theorem find_best_none {H : Nat} {bs : List Block} {me : Option Nat} {sz : Nat}
    (hne : bs.isEmpty = false)
    (h : (find_best_block H bs me sz).1 = none) :
    (find_best_block H bs me sz).2.1 = coalesceList H bs ∧
    (find_best_block H bs me sz).2.2 = lastAddrOpt H (coalesceList H bs) := by
  unfold find_best_block at h ⊢
  rw [if_neg (by simp [hne])] at h ⊢
  dsimp only at h ⊢
  split at h
  · simp at h
  · rename_i hcond
    split at h
    · simp at h
    · rw [if_neg hcond, if_neg (by assumption)]
      exact ⟨rfl, rfl⟩

theorem malloc_create_ne_nullDeref (H : Nat) (st : Arena) (sa T : Nat)
    (h : st.memEnd = none → ¬ ALIGN8 sa < T - H) :
    malloc_create H st sa T ≠ .error .nullDeref := by
  unfold malloc_create create_block
  by_cases hc : ALIGN8 sa < T - H
  · rw [if_pos hc]
    dsimp only
    rw [if_pos rfl]
    cases hme : st.memEnd with
    | none => exact absurd hc (h hme)
    | some a =>
      dsimp only
      split <;> simp
  · rw [if_neg hc]
    dsimp only
    rw [if_neg (by simp)]
    simp

theorem malloc_prealloc_ne_nullDeref (H : Nat) (st : Arena) (sa T : Nat)
    (h : st.memEnd = none → st.blocks.isEmpty = true)
    (hsa : ALIGN8 sa = sa) :
    malloc_prealloc H st sa T ≠ .error .nullDeref := by
  unfold malloc_prealloc
  split
  · simp
  · rename_i hcond
    apply malloc_create_ne_nullDeref
    intro hme hc
    rw [hsa] at hc
    exact hcond ⟨hc, h hme⟩

theorem malloc_expand_ne_nullDeref (H : Nat) (st : Arena) (sa T : Nat)
    (h : st.memEnd = none → st.blocks.isEmpty = true)
    (hsa : ALIGN8 sa = sa) :
    malloc_expand H st sa T ≠ .error .nullDeref := by
  unfold malloc_expand
  split
  · exact malloc_prealloc_ne_nullDeref H st sa T h hsa
  · split
    · simp
    · dsimp only
      split
      · split <;> simp
      · exact malloc_prealloc_ne_nullDeref H st sa T h hsa

/-- C10: in any state where `head` and `tail` are null together (the invariant
the code maintains), `allocate` never dereferences a null `mem_end` in its
final provisioning step: a heap-eligible request on an empty arena is always
diverted to preallocation first, so when the created block has status `ALLOC`
and must be linked through `mem_end->next`, `mem_end` is non-null. -/
theorem C10_no_null_tail_deref (H : Nat) (st : Arena) (size T : Nat)
    (inv : st.blocks.isEmpty = true ↔ st.memEnd = none) :
    os_malloc_aux H st size T ≠ .error .nullDeref := by
  unfold os_malloc_aux
  split
  · simp
  · dsimp only
    split
    · rename_i hg
      split
      · simp
      · rename_i heq
        obtain ⟨h1, h2⟩ := find_best_none hg.1 heq
        apply malloc_expand_ne_nullDeref
        · intro hme
          dsimp only at hme ⊢
          rw [h2] at hme
          rw [h1]
          exact lastAddrOpt_eq_none.mp hme
        · exact ALIGN8_idem size
    · exact malloc_expand_ne_nullDeref H st _ T (fun hme => inv.mpr hme) (ALIGN8_idem size)

theorem C10_witness :
    os_malloc_aux 24 Arena.empty 100 131072 ≠ .error .nullDeref :=
  C10_no_null_tail_deref 24 Arena.empty 100 131072 (by decide)

/-! ## C6 -/

/-- C6: `create_block(n, T)` extends the heap (status `ALLOC`) exactly when
`align8(n) < T` and otherwise takes an anonymous private read/write mapping
(status `MAPPED`); either way the block's size is `align8(n)` and its next
link is null; and with the threshold `MMAP_THRESHOLD - H` that `allocate`
passes for fresh provisioning, the mapping is chosen exactly when
`align8(n) + H ≥ MMAP_THRESHOLD`. -/
theorem C6_create_block_mechanism (H n T : Nat) :
    (create_block H n T).1.size = ALIGN8 n ∧
    (create_block H n T).1.next = none ∧
    ((create_block H n T).1.status = .ALLOC ↔ ALIGN8 n < T) ∧
    ((create_block H n T).2 =
      if ALIGN8 n < T then Mech.sbrkCall (ALIGN8 (n + H))
      else Mech.mmapCall (ALIGN8 (n + H))) ∧
    ((create_block H n (MMAP_THRESHOLD - H)).1.status = .MAPPED ↔
      MMAP_THRESHOLD ≤ ALIGN8 n + H) := by
  unfold create_block MMAP_THRESHOLD
  by_cases h : ALIGN8 n < T <;> by_cases h2 : ALIGN8 n < 128 * 1024 - H <;>
    simp [h, h2] <;> omega

/-! ## C3 (amended) and C8 (amended): the empty-arena allocation paths -/

theorem idxAt_singleton (H : Nat) (b : Block) : idxAt H [b] 0 = some 0 := by
  simp [idxAt, addrAt, List.range_succ]

/-- On an empty arena, a request whose aligned size is below `treshold - H`
is served by preallocation: the whole `MMAP_THRESHOLD`-footprint block is
created by one `sbrk` of `MMAP_THRESHOLD` bytes and returned unsplit. -/
theorem malloc_aux_empty_prealloc (H sz T : Nat) (h8 : 8 ∣ H) (h0 : 0 < H)
    (hsz : 0 < sz) (hlt : ALIGN8 sz < T - H) (hT : T ≤ MMAP_THRESHOLD) :
    os_malloc_aux H Arena.empty sz T =
      .ok (some (.heap 0),
        ⟨[⟨MMAP_THRESHOLD - H, .ALLOC, fun _ => none⟩], some 0, [], 0, [MMAP_THRESHOLD], []⟩) := by
  have hHT : H < T := by omega
  have hHle : H ≤ MMAP_THRESHOLD := by omega
  have e2 : ALIGN8 (MMAP_THRESHOLD - H) = MMAP_THRESHOLD - H :=
    ALIGN8_eq_self (Nat.dvd_sub' (by decide) h8)
  have e3 : MMAP_THRESHOLD - H + H = MMAP_THRESHOLD := by omega
  have e4 : ALIGN8 MMAP_THRESHOLD = MMAP_THRESHOLD := by decide
  unfold os_malloc_aux
  rw [if_neg (by omega : ¬ sz = 0)]
  dsimp only
  rw [if_neg (by simp [Arena.empty])]
  unfold malloc_expand
  simp only [Arena.empty]
  unfold malloc_prealloc
  rw [if_pos (by simp [Arena.empty]; omega)]
  unfold prealloc create_block
  rw [e2, if_pos (by omega : MMAP_THRESHOLD - H < MMAP_THRESHOLD)]
  dsimp only [recordMech, NewBlock.toBlock]
  rw [e3, e4]
  simp

/-- On an empty arena, a request whose aligned size is at least
`treshold - H` is served by an anonymous mapping and the heap stays empty. -/
theorem malloc_aux_empty_mmap (H sz T : Nat) (hsz : 0 < sz)
    (hge : ¬ ALIGN8 sz < T - H) :
    os_malloc_aux H Arena.empty sz T =
      .ok (some (.mapd 0),
        ⟨[], none, [(0, ⟨ALIGN8 sz, .MAPPED, fun _ => none⟩)], 1, [], [ALIGN8 (ALIGN8 sz + H)]⟩) := by
  unfold os_malloc_aux
  rw [if_neg (by omega : ¬ sz = 0)]
  dsimp only
  rw [if_neg (by simp [Arena.empty])]
  unfold malloc_expand
  simp only [Arena.empty]
  unfold malloc_prealloc
  rw [if_neg (by
    rintro ⟨h1, -⟩
    exact hge h1)]
  unfold malloc_create create_block
  simp only [ALIGN8_idem]
  rw [if_neg hge]
  dsimp only
  rw [if_neg (by simp)]
  dsimp only [recordMech, NewBlock.toBlock]
  simp

/-- C3 (amended): starting from an empty arena, `allocate(100)` performs
exactly one heap extension of `MMAP_THRESHOLD` bytes and returns the
preallocated block whole: the returned payload's block has size
`MMAP_THRESHOLD - H` with status `ALLOC`, it is both head and tail, and no
trailing `FREE` block is split off. -/
theorem C3_first_allocation_prealloc_whole (H : Nat) (h8 : 8 ∣ H) (h0 : 0 < H)
    (hlt : H + 104 < MMAP_THRESHOLD) :
    ∃ st1, os_malloc H Arena.empty 100 = .ok (some (.heap 0), st1) ∧
      st1.blocks.map Block.size = [MMAP_THRESHOLD - H] ∧
      st1.blocks.map Block.status = [.ALLOC] ∧
      st1.memEnd = some 0 ∧
      st1.sbrks = [MMAP_THRESHOLD] ∧ st1.mmaps = [] := by
  have h1 : ALIGN8 100 < MMAP_THRESHOLD - H := by
    have e : ALIGN8 100 = 104 := by decide
    unfold MMAP_THRESHOLD at hlt ⊢
    omega
  exact ⟨_, malloc_aux_empty_prealloc H 100 MMAP_THRESHOLD h8 h0 (by omega) h1 le_rfl,
    by simp, by simp, rfl, rfl, rfl⟩

theorem C3_witness :
    ∃ st1, os_malloc 24 Arena.empty 100 = .ok (some (.heap 0), st1) ∧
      st1.blocks.map Block.size = [MMAP_THRESHOLD - 24] ∧
      st1.blocks.map Block.status = [.ALLOC] ∧
      st1.memEnd = some 0 ∧
      st1.sbrks = [MMAP_THRESHOLD] ∧ st1.mmaps = [] :=
  C3_first_allocation_prealloc_whole 24 (by decide) (by decide) (by decide)

theorem memsetZero_heap_singleton (H : Nat) (b : Block) (me : Option Nat)
    (mp : List (Nat × Block)) (nid : Nat) (sb mm : List Nat) (c : Nat) :
    memsetZero H ⟨[b], me, mp, nid, sb, mm⟩ (.heap 0) c =
      ⟨[zeroData b c], me, mp, nid, sb, mm⟩ := by
  simp [memsetZero, idxAt_singleton, blkAt]

theorem memsetZero_mapd_singleton (H : Nat) (b : Block) (bs : List Block)
    (me : Option Nat) (id nid : Nat) (sb mm : List Nat) (c : Nat) :
    memsetZero H ⟨bs, me, [(id, b)], nid, sb, mm⟩ (.mapd id) c =
      ⟨bs, me, [(id, zeroData b c)], nid, sb, mm⟩ := by
  simp [memsetZero, lookupMapped, setMapped]

theorem ptrBlock_heap_singleton (H : Nat) (b : Block) (me : Option Nat)
    (mp : List (Nat × Block)) (nid : Nat) (sb mm : List Nat) :
    ptrBlock H ⟨[b], me, mp, nid, sb, mm⟩ (.heap 0) = b := by
  simp [ptrBlock, idxAt_singleton, blkAt]

theorem ptrBlock_mapd_singleton (H : Nat) (b : Block) (bs : List Block)
    (me : Option Nat) (id nid : Nat) (sb mm : List Nat) :
    ptrBlock H ⟨bs, me, [(id, b)], nid, sb, mm⟩ (.mapd id) = b := by
  simp [ptrBlock, lookupMapped]

/-- C8 (amended): starting from an empty arena, for every `k` and `n` whose
product is positive and fits in a `size_t`, `zero_allocate(k, n)` returns a
payload pointer to at least `k·n` bytes, each of whose first `k·n` bytes
reads as 0, using the OS page size as the heap/mapping threshold. -/
theorem C8_calloc_zeroed (H pg k n : Nat) (h8 : 8 ∣ H) (h0 : 0 < H)
    (hpg : pg ≤ MMAP_THRESHOLD) (hk : 0 < k * n) (hkn : k * n < 2 ^ 64) :
    ∃ p st1, os_calloc H pg Arena.empty k n = .ok (some p, st1) ∧
      k * n ≤ (ptrBlock H st1 p).size ∧
      ∀ i, i < k * n → (ptrBlock H st1 p).data i = some 0 := by
  have hc : k * n % 2 ^ 64 = k * n := Nat.mod_eq_of_lt hkn
  unfold os_calloc
  rw [hc]
  dsimp only
  by_cases hcase : ALIGN8 (k * n) < pg - H
  · rw [malloc_aux_empty_prealloc H (k * n) pg h8 h0 hk hcase hpg]
    dsimp only
    rw [memsetZero_heap_singleton]
    refine ⟨.heap 0, _, rfl, ?_, ?_⟩
    · rw [ptrBlock_heap_singleton]
      have h1 := ALIGN8_le (k * n)
      simp [zeroData]
      omega
    · intro i hi
      rw [ptrBlock_heap_singleton]
      simp [zeroData, hi]
  · rw [malloc_aux_empty_mmap H (k * n) pg hk hcase]
    dsimp only
    rw [memsetZero_mapd_singleton]
    refine ⟨.mapd 0, _, rfl, ?_, ?_⟩
    · rw [ptrBlock_mapd_singleton]
      have h1 := ALIGN8_le (k * n)
      simp [zeroData]
      omega
    · intro i hi
      rw [ptrBlock_mapd_singleton]
      simp [zeroData, hi]

theorem C8_witness :
    ∃ p st1, os_calloc 24 4096 Arena.empty 1 8 = .ok (some p, st1) ∧
      1 * 8 ≤ (ptrBlock 24 st1 p).size ∧
      ∀ i, i < 1 * 8 → (ptrBlock 24 st1 p).data i = some 0 :=
  C8_calloc_zeroed 24 4096 1 8 (by decide) (by decide) (by decide) (by decide) (by decide)

/-! ## C5 (amended): the no-adjacent-FREE invariant at search exits -/

/-- The pairwise relation of the no-adjacent-`FREE` invariant. -/
def NoTwoFree (bs : List Block) : Prop :=
  List.Chain' (fun x y => ¬(x.status = .FREE ∧ y.status = .FREE)) bs

theorem noAdjFree_iff (bs : List Block) : noAdjFree bs = true ↔ NoTwoFree bs := by
  induction bs with
  | nil => simp [noAdjFree, NoTwoFree]
  | cons a t ih =>
    cases t with
    | nil => simp [noAdjFree, NoTwoFree]
    | cons b r =>
      unfold noAdjFree NoTwoFree
      rw [List.chain'_cons]
      unfold NoTwoFree at ih
      rw [← ih]
      simp [Bool.and_eq_true, not_and]
      tauto

theorem coalesceAux_head (H : Nat) (cur : Block) (l : List Block) :
    ∃ x xs, coalesceAux H cur l = x :: xs ∧ x.status = cur.status := by
  induction l generalizing cur with
  | nil => exact ⟨cur, [], rfl, rfl⟩
  | cons c rest ih =>
    unfold coalesceAux
    split
    · obtain ⟨x, xs, hx, hs⟩ := ih (mergeBlocks H cur c)
      exact ⟨x, xs, hx, hs⟩
    · exact ⟨cur, coalesceAux H c rest, rfl, rfl⟩

theorem coalesceAux_noTwoFree (H : Nat) (cur : Block) (l : List Block) :
    NoTwoFree (coalesceAux H cur l) := by
  induction l generalizing cur with
  | nil => exact List.chain'_singleton cur
  | cons c rest ih =>
    unfold coalesceAux
    split
    · exact ih (mergeBlocks H cur c)
    · rename_i hcond
      obtain ⟨x, xs, hx, hs⟩ := coalesceAux_head H c rest
      rw [hx]
      unfold NoTwoFree
      rw [List.chain'_cons]
      refine ⟨?_, hx ▸ ih c⟩
      rintro ⟨h1, h2⟩
      exact hcond ⟨h1, hs ▸ h2⟩

theorem coalesceList_noTwoFree (H : Nat) (bs : List Block) :
    NoTwoFree (coalesceList H bs) := by
  cases bs with
  | nil => exact List.chain'_nil
  | cons b t => exact coalesceAux_noTwoFree H b t

theorem set_noTwoFree {bs : List Block} {b' : Block} (i : Nat)
    (h : NoTwoFree bs) (hb : b'.status ≠ .FREE) : NoTwoFree (bs.set i b') := by
  unfold NoTwoFree at h ⊢
  rw [List.chain'_iff_get] at h ⊢
  intro j hj
  simp only [List.get_eq_getElem, List.length_set] at hj ⊢
  rw [List.getElem_set, List.getElem_set]
  by_cases e1 : i = j
  · rw [if_pos e1]
    rw [if_neg (by omega)]
    rintro ⟨hf, -⟩
    exact hb hf
  · rw [if_neg e1]
    by_cases e2 : i = j + 1
    · rw [if_pos e2]
      rintro ⟨-, hf⟩
      exact hb hf
    · rw [if_neg e2]
      have := h j (by simpa using hj)
      simpa using this

theorem append_noTwoFree {bs : List Block} {x : Block}
    (h : NoTwoFree bs) (hx : x.status ≠ .FREE) : NoTwoFree (bs ++ [x]) := by
  unfold NoTwoFree at h ⊢
  rw [List.chain'_append]
  refine ⟨h, List.chain'_singleton x, ?_⟩
  intro u hu v hv
  simp at hv
  subst hv
  rintro ⟨-, hf⟩
  exact hx hf

theorem set_append_len (l1 l2 : List Block) (a : Block) :
    (l1 ++ l2).set l1.length a = l1 ++ l2.set 0 a := by
  induction l1 with
  | nil => rfl
  | cons x t ih => simp [List.set, ih]

/-- The `can_be_used` flag of the search loop is only ever set while standing
on a `FREE` block, so a winner delivered with the flag up is `FREE`. -/
theorem bestScan_free (sz : Nat) (full : List Block) :
    ∀ (l : List Block) (k best bsz : Nat) (canBe : Bool),
      full.drop k = l →
      (canBe = true → ∃ b, full[best]? = some b ∧ b.status = .FREE) →
      (bestScan sz l k best bsz canBe).2 = true →
      ∃ b, full[(bestScan sz l k best bsz canBe).1]? = some b ∧ b.status = .FREE := by
  intro l
  induction l with
  | nil =>
    intro k best bsz canBe hdrop hinv hres
    exact hinv hres
  | cons hd tl ih =>
    intro k best bsz canBe hdrop hinv
    have hk : full[k]? = some hd := by
      have h0 := List.getElem?_drop full k 0
      rw [hdrop] at h0
      simpa using h0.symm
    have htl : full.drop (k + 1) = tl := by
      have h1 : full.drop (k + 1) = (full.drop k).drop 1 := by
        rw [List.drop_drop]
      rw [h1, hdrop, List.drop_one]
      rfl
    unfold bestScan
    split
    · rename_i hcond
      exact ih (k + 1) k hd.size true htl (fun _ => ⟨hd, hk, hcond.1⟩)
    · exact ih (k + 1) best bsz canBe htl hinv

theorem insert_pair_noTwoFree {bs : List Block} {i : Nat} {b : Block} (u w : Block)
    (hb : bs[i]? = some b) (hf : b.status = .FREE) (h : NoTwoFree bs)
    (hu : u.status ≠ .FREE) :
    NoTwoFree (bs.take i ++ u :: w :: bs.drop (i + 1)) := by
  obtain ⟨hlt, hget⟩ := List.getElem?_eq_some.mp hb
  have hdecomp : bs = bs.take i ++ b :: bs.drop (i + 1) := by
    rw [← hget]
    exact (take_cons_drop hlt).symm
  rw [hdecomp] at h
  unfold NoTwoFree at h ⊢
  rw [List.chain'_append] at h ⊢
  obtain ⟨h1, h2, h3⟩ := h
  rw [List.chain'_cons'] at h2
  obtain ⟨h2h, h2t⟩ := h2
  refine ⟨h1, ?_, ?_⟩
  · rw [List.chain'_cons]
    refine ⟨by rintro ⟨hc, -⟩; exact hu hc, ?_⟩
    rw [List.chain'_cons']
    refine ⟨?_, h2t⟩
    intro y hy
    rintro ⟨-, hyf⟩
    exact h2h y hy ⟨hf, hyf⟩
  · intro x hx v hv
    simp at hv
    rw [← hv]
    rintro ⟨-, hc⟩
    exact hu hc

theorem set_cons_append (t : List Block) (u w : Block) (d : List Block) (x : Block)
    (n : Nat) (hn : n = t.length) :
    (t ++ u :: w :: d).set n x = t ++ x :: w :: d := by
  subst hn
  rw [set_append_len]
  rfl

/-- Splitting a `FREE` block and then marking its left part `ALLOC` (the hit
path of the search) preserves the no-adjacent-`FREE` invariant. -/
theorem split_mark_noTwoFree (H : Nat) {bs : List Block} {i : Nat} {b : Block}
    (me : Option Nat) (n : Nat)
    (hb : bs[i]? = some b) (hf : b.status = .FREE) (h : NoTwoFree bs) :
    NoTwoFree (markAlloc (split_block H bs me i n).1 i) := by
  obtain ⟨hlt, hget⟩ := List.getElem?_eq_some.mp hb
  have hlen : (bs.take i).length = i := by
    simp [List.length_take]
    omega
  unfold split_block
  rw [hb]
  dsimp only
  unfold markAlloc
  rw [List.getElem?_append_right (by omega)]
  rw [hlen]
  simp only [Nat.sub_self, List.getElem?_cons_zero]
  rw [set_cons_append _ _ _ _ _ i hlen.symm]
  exact insert_pair_noTwoFree _ _ hb hf h (by intro hc; simp at hc)

theorem noTwoFree_nil : NoTwoFree [] := List.chain'_nil

theorem noTwoFree_single (b : Block) : NoTwoFree [b] := List.chain'_singleton b

theorem recordMech_blocks (st : Arena) (m : Mech) : (recordMech st m).blocks = st.blocks := by
  cases m <;> rfl

/-- After a search hit the winner is `FREE` in a coalesced (hence
no-adjacent-`FREE`) list, so marking it `ALLOC` — with or without a split —
leaves no adjacent `FREE` pair. -/
theorem find_best_hit (H : Nat) {b0 : Block} {t : List Block} {me : Option Nat} {sz i : Nat}
    (h : (find_best_block H (b0 :: t) me sz).1 = some i) :
    NoTwoFree (markAlloc (find_best_block H (b0 :: t) me sz).2.1 i) := by
  unfold find_best_block at h ⊢
  rw [if_neg (by simp)] at h ⊢
  simp only [coalesce_blocks, coalesceList] at h ⊢
  obtain ⟨x, xs, hx, hxs⟩ := coalesceAux_head H b0 t
  simp only [hx] at h ⊢
  have hblk : blkAt (x :: xs) 0 = x := by simp [blkAt]
  simp only [hblk] at h ⊢
  have hchain : NoTwoFree (x :: xs) := hx ▸ coalesceAux_noTwoFree H b0 t
  have hscan := bestScan_free sz (x :: xs) (x :: xs) 0 0 x.size
    (decide (x.status = .FREE)) rfl
    (fun hc => ⟨x, by simp, of_decide_eq_true hc⟩)
  split at h
  · rename_i hcond
    rw [if_pos hcond]
    dsimp only at h ⊢
    have hi : (bestScan sz (x :: xs) 0 0 x.size (decide (x.status = .FREE))).1 = i :=
      Option.some.inj h
    obtain ⟨b, hb, hbf⟩ := hscan hcond.1
    rw [hi] at hb
    rw [hi]
    exact split_mark_noTwoFree H _ sz hb hbf hchain
  · rename_i hcond
    rw [if_neg hcond]
    split at h
    · rename_i hcond2
      rw [if_pos hcond2]
      dsimp only at h ⊢
      have hi : (bestScan sz (x :: xs) 0 0 x.size (decide (x.status = .FREE))).1 = i :=
        Option.some.inj h
      obtain ⟨b, hb, hbf⟩ := hscan hcond2
      rw [hi] at hb
      unfold markAlloc
      rw [hb]
      exact set_noTwoFree i hchain (by simp)
    · simp at h

theorem malloc_create_noAdj (H : Nat) (st : Arena) (sa T : Nat)
    (h : NoTwoFree st.blocks) :
    NoTwoFree (runBlocks (malloc_create H st sa T)) := by
  unfold malloc_create create_block
  by_cases hc : ALIGN8 sa < T - H
  · rw [if_pos hc]
    dsimp only
    rw [if_pos rfl]
    cases st.memEnd with
    | none => exact noTwoFree_nil
    | some a =>
      dsimp only
      split
      · simp only [runBlocks]
        rw [recordMech_blocks]
        exact append_noTwoFree h (by simp [NewBlock.toBlock])
      · exact noTwoFree_nil
  · rw [if_neg hc]
    dsimp only
    rw [if_neg (by simp)]
    simp only [runBlocks]
    rw [recordMech_blocks]
    exact h

theorem malloc_prealloc_noAdj (H : Nat) (st : Arena) (sa T : Nat)
    (h : NoTwoFree st.blocks) :
    NoTwoFree (runBlocks (malloc_prealloc H st sa T)) := by
  unfold malloc_prealloc
  split
  · unfold prealloc
    simp only [runBlocks]
    rw [recordMech_blocks]
    exact noTwoFree_single _
  · exact malloc_create_noAdj H st sa T h

theorem malloc_expand_noAdj (H : Nat) (st : Arena) (sa T : Nat)
    (h : NoTwoFree st.blocks) :
    NoTwoFree (runBlocks (malloc_expand H st sa T)) := by
  unfold malloc_expand
  split
  · exact malloc_prealloc_noAdj H st sa T h
  · split
    · exact noTwoFree_nil
    · dsimp only
      split
      · split
        · simp only [runBlocks]
          exact set_noTwoFree _ h (by simp)
        · exact noTwoFree_nil
      · exact malloc_prealloc_noAdj H st sa T h

/-- C5 (amended): at the exit of any `allocate`/`zero_allocate` call that
performs the best-fit search — a positive request whose aligned size is below
the threshold, on a non-empty heap — no two adjacent heap blocks are
simultaneously `FREE`, whatever the entry state: the search coalesces first
and every later step only turns blocks `ALLOC` or appends `ALLOC` blocks.
(`release` may leave adjacent `FREE` blocks; they are merged by the next
search.) -/
theorem C5_search_exit_no_adjacent_free (H : Nat) (st : Arena) (size T : Nat)
    (hsz : 0 < size) (hne : st.blocks.isEmpty = false) (hlt : ALIGN8 size < T) :
    noAdjFree (runBlocks (os_malloc_aux H st size T)) = true := by
  rw [noAdjFree_iff]
  unfold os_malloc_aux
  rw [if_neg (by omega)]
  dsimp only
  rw [if_pos ⟨hne, hlt⟩]
  cases hbs : st.blocks with
  | nil => rw [hbs] at hne; simp at hne
  | cons b0 tl =>
    split
    · rename_i heq
      simp only [runBlocks]
      exact find_best_hit H heq
    · rename_i heq
      apply malloc_expand_noAdj
      dsimp only
      have hf := find_best_none (by simp : (b0 :: tl).isEmpty = false) heq
      rw [hf.1]
      exact coalesceList_noTwoFree H (b0 :: tl)

/-- A two-block arena with adjacent `FREE` blocks, used as witness state. -/
def st5 : Arena := ⟨[⟨8, .FREE, fun _ => none⟩, ⟨8, .FREE, fun _ => none⟩], some 32, [], 0, [], []⟩

theorem C5_witness : noAdjFree (runBlocks (os_malloc_aux 24 st5 8 131072)) = true :=
  C5_search_exit_no_adjacent_free 24 st5 8 131072 (by decide) (by decide) (by decide)

end OSMem

